import Mathlib

/-!
Verification of the request-governance pipeline of a Jira MCP gateway.

This file gives a shallow embedding of the gateway's governance components
(security validator, rate limiter, audit logger, permission validator and
field validator) and proves or refutes the frozen claims about them.

Modelling conventions:
- JavaScript strings are modelled by `String` / `List Char` (the inputs of
  interest are ASCII, so UTF-16 length, `toLowerCase` and `\w` coincide with
  their ASCII counterparts, which is what we implement).
- `Date.now()` timestamps are rationals (JS numbers are exact on these
  integral magnitudes); durations divide exactly as in JS float division.
- Fallible code returns `Except`; the error types carry the machine-readable
  code / field that the claims talk about.
- Stateful code (the rate limiter's per-key history, the `lastIndex` of the
  module-level global regexes, the permission cache) is explicit state
  passing.
-/

/-! ### ASCII character and string helpers (JS `toLowerCase`, `includes`) -/

/-- ASCII lower-casing of a character, as JS `toLowerCase` acts on ASCII. -/
def asciiLower (c : Char) : Char :=
  if 'A' ≤ c ∧ c ≤ 'Z' then Char.ofNat (c.toNat + 32) else c

/-- Case-insensitive comparison of two characters (ASCII). -/
def charEqCI (a b : Char) : Bool := asciiLower a = asciiLower b

/-- ASCII lower-casing of a string. -/
def lowerStr (s : String) : String := String.mk (s.data.map asciiLower)

/-- JS word character, the `\w` / `\b` character class: `[A-Za-z0-9_]`. -/
def isWordChar (c : Char) : Bool :=
  ('a' ≤ c ∧ c ≤ 'z') || ('A' ≤ c ∧ c ≤ 'Z') || ('0' ≤ c ∧ c ≤ '9') || c = '_'

/-- JS whitespace matched by `\s` (ASCII part). -/
def isWsChar (c : Char) : Bool :=
  c = ' ' || c = '\t' || c = '\n' || c = '\r' || c = '\x0b' || c = '\x0c'

/-- Does `pat` occur, case-sensitively, as a prefix of `s`? -/
def listIsPrefix : List Char → List Char → Bool
  | [], _ => true
  | _ :: _, [] => false
  | p :: ps, c :: cs => p = c && listIsPrefix ps cs

/-- Does `pat` occur, case-insensitively, as a prefix of `s`? -/
def listIsPrefixCI : List Char → List Char → Bool
  | [], _ => true
  | _ :: _, [] => false
  | p :: ps, c :: cs => charEqCI p c && listIsPrefixCI ps cs

/-- Does `needle` occur (case-sensitively) anywhere inside `hay`?
JS `String.prototype.includes`. -/
def listContainsSub (hay needle : List Char) : Bool :=
  (List.range (hay.length + 1)).any (fun i => listIsPrefix needle (hay.drop i))

/-- JS `hay.includes(needle)` on strings. -/
def strIncludes (hay needle : String) : Bool := listContainsSub hay.data needle.data

/-! ### Audit logger: risk classification (`AuditLogger.determineRiskLevel`) -/

inductive RiskLevel where
  | low | medium | high | critical
  deriving DecidableEq, Repr

/-- `criticalOps` of `determineRiskLevel`. -/
def criticalOps : List String := ["delete", "remove", "destroy", "purge"]

/-- `criticalResources` of `determineRiskLevel`. -/
def criticalResources : List String := ["user", "project", "board"]

/-- `highRiskOps` of `determineRiskLevel`. -/
def highRiskOps : List String := ["bulk", "mass", "complete", "close", "resolve", "transition"]

/-- `highRiskResources` of `determineRiskLevel`. -/
def highRiskResources : List String := ["sprint", "attachment", "permission"]

/-- `mediumRiskOps` of `determineRiskLevel`. -/
def mediumRiskOps : List String := ["update", "modify", "edit", "move", "assign"]

/-- `mediumRiskResources` of `determineRiskLevel`. -/
def mediumRiskResources : List String := ["issue", "comment", "worklog"]

/-- The critical-tier test of `determineRiskLevel`:
`criticalOps.some(op => operation.toLowerCase().includes(op)) ||
 criticalResources.some(res => resource.toLowerCase().includes(res))`. -/
def criticalHit (operation resource : String) : Bool :=
  criticalOps.any (fun op => strIncludes (lowerStr operation) op) ||
  criticalResources.any (fun res => strIncludes (lowerStr resource) res)

/-- The high-tier test of `determineRiskLevel`. -/
def highHit (operation resource : String) : Bool :=
  highRiskOps.any (fun op => strIncludes (lowerStr operation) op) ||
  highRiskResources.any (fun res => strIncludes (lowerStr resource) res)

/-- The medium-tier test of `determineRiskLevel`. -/
def mediumHit (operation resource : String) : Bool :=
  mediumRiskOps.any (fun op => strIncludes (lowerStr operation) op) ||
  mediumRiskResources.any (fun res => strIncludes (lowerStr resource) res)

/-- `AuditLogger.determineRiskLevel(operation, resource)`: keyword-driven
risk classification, checked tier by tier (critical, high, medium, else low). -/
def determineRiskLevel (operation resource : String) : RiskLevel :=
  if criticalHit operation resource then .critical
  else if highHit operation resource then .high
  else if mediumHit operation resource then .medium
  else .low

/-! ### A small model of the JS regexes used by the validators

Every dangerous-input regex in the repository falls into one of the shapes
below.  `matchEndAt p s i` decides whether pattern `p` matches starting
exactly at index `i` of `s` and returns the index one past the end of the
match (the value JS assigns to `lastIndex` after a successful global
`test`).  `findFrom` scans for the leftmost match at or after a start
index, like a JS regex engine. -/

inductive RePat where
  /-- a case-insensitive literal, e.g. `/javascript:/gi` -/
  | litCI (pat : List Char)
  /-- `name\s*\(`, e.g. `/eval\s*\(/gi` -/
  | callCI (name : List Char)
  /-- `/<script[^>]*>.*?<\/script>/gi` -/
  | scriptTag
  /-- `\b(W1|W2|...)\b`, e.g. `/\b(DROP|DELETE|...)\b/gi` -/
  | wordAlt (ws : List (List Char))
  /-- `\b(U1|U2)\b.*\b(V1|V2)\b`, i.e. `/\b(UNION|SELECT)\b.*\b(FROM|WHERE)\b/gi` -/
  | wordPair (ws1 ws2 : List (List Char))
  /-- `/['"]\s*;\s*['"]/gi` -/
  | quoteSemi
  deriving DecidableEq, Repr

/-- Length of the maximal run of characters satisfying `p` at the front. -/
def takeWhileLen (p : Char → Bool) : List Char → Nat
  | [] => 0
  | c :: cs => if p c then takeWhileLen p cs + 1 else 0

/-- `\b` holds at position `i` looking left: start of string or the previous
character is not a word character. -/
def boundaryLeft (s : List Char) (i : Nat) : Bool :=
  match (s.take i).getLast? with
  | none => true
  | some c => !isWordChar c

/-- `\b` holds right after a match ending at `j`: end of string or the next
character is not a word character. -/
def boundaryRight (s : List Char) (j : Nat) : Bool :=
  match (s.drop j).head? with
  | none => true
  | some c => !isWordChar c

/-- Match `\bW\b` for the first alternative `W` (in regex alternation order)
that fits at position `i`; returns the end index. -/
def wordAltEndAt (ws : List (List Char)) (s : List Char) (i : Nat) : Option Nat :=
  if boundaryLeft s i then
    ws.findSome? (fun w =>
      if listIsPrefixCI w (s.drop i) && boundaryRight s (i + w.length) then
        some (i + w.length)
      else none)
  else none

/-- Match `name\s*\(` at position `i` (the run of `\s` is maximal; since a
whitespace character is never `(`, the regex accepts exactly when the first
character after the run is `(`). -/
def callEndAt (name : List Char) (s : List Char) (i : Nat) : Option Nat :=
  if listIsPrefixCI name (s.drop i) then
    let j := i + name.length
    let k := j + takeWhileLen isWsChar (s.drop j)
    match (s.drop k).head? with
    | some '(' => some (k + 1)
    | _ => none
  else none

/-- Match `<script[^>]*>.*?<\/script>` at position `i`.  `[^>]*` is the
maximal `>`-free run (it can never consume the closing `>`); the lazy
`.*?` takes the nearest later `</script>` with no newline in between
(`.` does not match a newline). -/
def scriptTagEndAt (s : List Char) (i : Nat) : Option Nat :=
  if listIsPrefixCI "<script".data (s.drop i) then
    let j := i + 7 + takeWhileLen (fun c => c ≠ '>') (s.drop (i + 7))
    match (s.drop j).head? with
    | some '>' =>
      ((List.range (s.length + 1)).filter (fun m => j + 1 ≤ m)).findSome? (fun m =>
        if listIsPrefixCI "</script>".data (s.drop m) &&
            ((s.drop (j + 1)).take (m - (j + 1))).all (fun c => c ≠ '\n') then
          some (m + 9)
        else none)
    | _ => none
  else none

/-- Match `['"]\s*;\s*['"]` at position `i`. -/
def quoteSemiEndAt (s : List Char) (i : Nat) : Option Nat :=
  match (s.drop i).head? with
  | some c0 =>
    if c0 = '\'' || c0 = '"' then
      let j := i + 1 + takeWhileLen isWsChar (s.drop (i + 1))
      match (s.drop j).head? with
      | some ';' =>
        let k := j + 1 + takeWhileLen isWsChar (s.drop (j + 1))
        match (s.drop k).head? with
        | some c1 => if c1 = '\'' || c1 = '"' then some (k + 1) else none
        | none => none
      | _ => none
    else none
  | none => none

/-- Match of a pattern starting exactly at index `i`, returning the end. -/
def matchEndAt : RePat → List Char → Nat → Option Nat
  | .litCI pat, s, i =>
    if listIsPrefixCI pat (s.drop i) then some (i + pat.length) else none
  | .callCI name, s, i => callEndAt name s i
  | .scriptTag, s, i => scriptTagEndAt s i
  | .wordAlt ws, s, i => wordAltEndAt ws s i
  | .wordPair ws1 ws2, s, i =>
    match wordAltEndAt ws1 s i with
    | none => none
    | some e1 =>
      ((List.range (s.length + 1)).filter (fun m => e1 ≤ m)).findSome? (fun m =>
        if ((s.drop e1).take (m - e1)).all (fun c => c ≠ '\n') then
          (wordAltEndAt ws2 s m).map (fun e2 => e2)
        else none)
  | .quoteSemi, s, i => quoteSemiEndAt s i

/-- Leftmost match of `p` in `s` starting at or after `li`:
`(start, end)` of the match, like a JS global regex search from `lastIndex`. -/
def findFrom (p : RePat) (s : List Char) (li : Nat) : Option (Nat × Nat) :=
  ((List.range (s.length + 1)).filter (fun i => li ≤ i)).findSome? (fun i =>
    (matchEndAt p s i).map (fun e => (i, e)))

/-- `regex.test(s)` for a freshly created regex (`lastIndex = 0`). -/
def jsTestPure (p : RePat) (s : List Char) : Bool := (findFrom p s 0).isSome

/-- `regex.test(s)` for a *global* regex with persistent `lastIndex`:
on a hit, `lastIndex` moves past the match; on a miss it resets to `0`. -/
def jsTestG (p : RePat) (s : List Char) (li : Nat) : Bool × Nat :=
  match findFrom p s li with
  | some (_, e) => (true, e)
  | none => (false, 0)

/-- Run `pattern.test` over a list of module-level global regexes, in order,
stopping at the first hit (the source loop `throw`s there), threading each
regex's `lastIndex`.  Returns whether some pattern hit, plus the updated
`lastIndex` of every regex (patterns after the hit keep theirs untouched). -/
def testPatternsSeq : List RePat → List Nat → List Char → Bool × List Nat
  | [], lis, _ => (false, lis)
  | _ :: _, [], _ => (false, [])
  | p :: ps, li :: lis, s =>
    let r := jsTestG p s li
    if r.fst then (true, r.snd :: lis)
    else
      let rest := testPatternsSeq ps lis s
      (rest.fst, r.snd :: rest.snd)

/-! ### Security validator (`security.ts`, both revisions in the repo)

`SecurityError` carries the machine-readable `code`; the human-readable
message is not modelled (no claim mentions it). -/

structure SecurityError where
  code : String
  deriving DecidableEq, Repr

/-- `DANGEROUS_SCRIPT_PATTERNS`, the module-level global regexes of the first
`security.ts` revision (in source order). -/
def dangerousScriptPatterns : List RePat :=
  [ .scriptTag,
    .litCI "javascript:".data,
    .litCI "vbscript:".data,
    .litCI "onload=".data,
    .litCI "onerror=".data,
    .litCI "onclick=".data,
    .litCI "data:text/html".data,
    .callCI "eval".data,
    .callCI "Function".data,
    .callCI "setTimeout".data,
    .callCI "setInterval".data ]

/-- The function-local `dangerousPatterns` of the second revision's
`sanitizeJQL` (in source order).  Being function-local, these regexes are
recreated on every call, so their `g` flag carries no state. -/
def sqlDangerousPatterns : List RePat :=
  [ .wordAlt ["DROP".data, "DELETE".data, "INSERT".data, "UPDATE".data,
              "CREATE".data, "ALTER".data, "TRUNCATE".data],
    .wordPair ["UNION".data, "SELECT".data] ["FROM".data, "WHERE".data],
    .quoteSemi,
    .wordAlt ["EXEC".data, "EXECUTE".data, "EVAL".data],
    .wordAlt ["SCRIPT".data, "JAVASCRIPT".data, "VBSCRIPT".data],
    .scriptTag,
    .litCI "javascript:".data,
    .litCI "vbscript:".data,
    .litCI "onload=".data,
    .litCI "onerror=".data,
    .litCI "onclick=".data ]

/-- JS `String.prototype.trim`: strip whitespace from both ends. -/
def jsTrim (s : String) : String :=
  String.mk (((s.data.dropWhile isWsChar).reverse.dropWhile isWsChar).reverse)

/-- The `lastIndex` state of the 11 module-level `DANGEROUS_SCRIPT_PATTERNS`
at module load. -/
def scriptPatternsInit : List Nat := List.replicate dangerousScriptPatterns.length 0

/-- `sanitizeJQL(jql)` of the first revision.  The patterns it loops over are
module level and global, so each call reads and writes their `lastIndex`:
the function takes and returns that state.  Pattern loop first, then the
2000-character ceiling, then `trim`. -/
def sanitizeJQLv1 (st : List Nat) (jql : String) : Except SecurityError String × List Nat :=
  let r := testPatternsSeq dangerousScriptPatterns st jql.data
  if r.fst then (.error ⟨"DANGEROUS_JQL_PATTERN"⟩, r.snd)
  else if 2000 < jql.length then (.error ⟨"JQL_TOO_LONG"⟩, r.snd)
  else (.ok (jsTrim jql), r.snd)

/-- `sanitizeJQL(jql)` of the second revision.  Its patterns are local to
the call, so it is a pure function of the query.  The loop throws at the
first matching pattern; every pattern throws the same code, so the test is
whether any pattern matches. -/
def sanitizeJQLv2 (jql : String) : Except SecurityError String :=
  if sqlDangerousPatterns.any (fun p => jsTestPure p jql.data) then
    .error ⟨"DANGEROUS_JQL_PATTERN"⟩
  else if 2000 < jql.length then .error ⟨"JQL_TOO_LONG"⟩
  else .ok (jsTrim jql)

/-! #### Destructive-operation confirmation -/

structure DestructiveOperationOptions where
  requireConfirmation : Bool := true
  confirmationPhrase : String := "CONFIRM_DELETE"
  auditLog : Bool := true
  deriving DecidableEq, Repr

/-- On success `validateDestructiveOperation` returns; `audited` records
whether the `console.warn` audit side effect fired (`auditLog` option). -/
structure DestructiveOk where
  audited : Bool
  deriving DecidableEq, Repr

/-- JS truthiness of an optional string: `undefined` and `''` are falsy. -/
def jsFalsyStr : Option String → Bool
  | none => true
  | some s => s.isEmpty

/-- `validateDestructiveOperation(operation, confirmation, options)`:
throws `CONFIRMATION_REQUIRED` when confirmation is required and
`!confirmation || confirmation !== confirmationPhrase`. -/
def validateDestructiveOperation (_operation : String) (confirmation : Option String)
    (options : DestructiveOperationOptions) : Except SecurityError DestructiveOk :=
  if options.requireConfirmation &&
      (jsFalsyStr confirmation || confirmation != some options.confirmationPhrase) then
    .error ⟨"CONFIRMATION_REQUIRED"⟩
  else
    .ok ⟨options.auditLog⟩

/-! #### File path validation -/

/-- `DANGEROUS_PATH_PATTERNS`: literal substrings checked case-insensitively
against the normalized path. -/
def dangerousPathPatterns : List String :=
  [ "../", "..\\", "..%2F", "..%5C", "%2e%2e%2f", "%2e%2e%5c",
    "/./", "/..", "\\..", "\\.\\", "file://", "http://", "https://",
    "ftp://", "sftp://" ]

/-- Split a character list at every occurrence of `sep`, like JS
`String.prototype.split` (empty segments are kept). -/
def splitChar (sep : Char) : List Char → List (List Char)
  | [] => [[]]
  | c :: rest =>
    if c = sep then [] :: splitChar sep rest
    else
      match splitChar sep rest with
      | [] => [[c]]
      | seg :: segs => (c :: seg) :: segs

/-- Join segments with `sep` between them. -/
def joinChar (sep : Char) : List (List Char) → List Char
  | [] => []
  | [x] => x
  | x :: xs => x ++ sep :: joinChar sep xs

/-- Does the character list start with a `/`? -/
def headIsSlash : List Char → Bool
  | '/' :: _ => true
  | _ => false

/-- Resolve `.` and `..` segments (Node's `normalizeString`).  `allowUp`
keeps leading `..` segments (true when normalizing a relative path, false
under `resolve`). -/
def normSegsAux (allowUp : Bool) : List (List Char) → List (List Char) → List (List Char)
  | acc, [] => acc.reverse
  | acc, seg :: rest =>
    if seg = [] || seg = ['.'] then normSegsAux allowUp acc rest
    else if seg = ['.', '.'] then
      match acc with
      | [] => normSegsAux allowUp (if allowUp then [seg] else []) rest
      | top :: acc' =>
        if top = ['.', '.'] then normSegsAux allowUp (seg :: top :: acc') rest
        else normSegsAux allowUp acc' rest
    else normSegsAux allowUp (seg :: acc) rest

/-- Node `path.posix.normalize`. -/
def posixNormalize (p : String) : String :=
  if p.data = [] then "." else
  let isAbs := headIsSlash p.data
  let trail : Bool := match p.data.getLast? with
    | some '/' => true
    | _ => false
  let core := joinChar '/' (normSegsAux (!isAbs) [] (splitChar '/' p.data))
  let core := if core = [] && !isAbs then ['.'] else core
  let core := if core ≠ [] && trail then core ++ ['/'] else core
  if isAbs then String.mk ('/' :: core) else String.mk core

/-- Node `path.posix.resolve` of a single path against an absolute working
directory `cwd` (no trailing slash in the result, `/` when empty). -/
def posixResolve (cwd p : String) : String :=
  let combined := if headIsSlash p.data then p.data else cwd.data ++ '/' :: p.data
  String.mk ('/' :: joinChar '/' (normSegsAux false [] (splitChar '/' combined)))

/-- JS `s.startsWith(pre)`. -/
def jsStartsWith (s pre : String) : Bool := listIsPrefix pre.data s.data

/-- The filesystem as the validator observes it: `existsSync`, `statSync`
(is it a regular file, and its size in bytes). -/
structure FSModel where
  pathExists : String → Bool
  pathIsFile : String → Bool
  fileSize : String → Nat

structure FileValidationOptions where
  allowedExtensions : List String := []
  maxFileSize : Nat := 50 * 1024 * 1024
  allowedDirectories : List String := []
  blockDangerousPatterns : Bool := true

/-- The extension drawn by `normalizedPath.split('.').pop()?.toLowerCase()`:
the last `.`-separated piece of the *normalized* path (the whole path when
it has no dot — a quirk of `split().pop()`). -/
def jsExtOf (normalizedPath : String) : String :=
  String.mk (((splitChar '.' normalizedPath.data).getLastD []).map asciiLower)

/-- `validateFilePath(filePath, options)`: normalize, resolve, dangerous
pattern check on the normalized path, allowed-directory prefix check on the
resolved path, existence, regular-file, size and extension checks, in source
order; returns the resolved path. -/
def validateFilePath (fs : FSModel) (cwd : String) (filePath : String)
    (options : FileValidationOptions) : Except SecurityError String :=
  let normalizedPath := posixNormalize filePath
  let resolvedPath := posixResolve cwd normalizedPath
  if options.blockDangerousPatterns &&
      dangerousPathPatterns.any (fun pat =>
        strIncludes (lowerStr normalizedPath) (lowerStr pat)) then
    .error ⟨"DANGEROUS_PATH_PATTERN"⟩
  else if !options.allowedDirectories.isEmpty &&
      !options.allowedDirectories.any (fun dir =>
        jsStartsWith resolvedPath (posixResolve cwd dir)) then
    .error ⟨"PATH_NOT_ALLOWED"⟩
  else if !fs.pathExists resolvedPath then
    .error ⟨"FILE_NOT_FOUND"⟩
  else if !fs.pathIsFile resolvedPath then
    .error ⟨"NOT_A_FILE"⟩
  else if options.maxFileSize < fs.fileSize resolvedPath then
    .error ⟨"FILE_TOO_LARGE"⟩
  else if !options.allowedExtensions.isEmpty &&
      ((jsExtOf normalizedPath).isEmpty ||
        !options.allowedExtensions.contains (jsExtOf normalizedPath)) then
    .error ⟨"EXTENSION_NOT_ALLOWED"⟩
  else
    .ok resolvedPath

/-! ### Rate limiter (`rateLimiter.ts`)

Per-key state is the list of admission timestamps.  Timestamps and
durations are rationals: JS numbers are exact on these magnitudes and
`windowMs / 10` divides exactly.  `checkAndWait` is modelled per key as a
step on that history; the sleeps it performs are reported as flags.
The opportunistic `performCleanup` call at the top only drops timestamps
that the window filter below drops anyway, so it does not change any
admission decision and is not repeated here. -/

structure RateLimiterOptions where
  maxRequests : Nat
  windowMs : ℚ
  delayMs : ℚ
  burstLimit : Nat
  deriving DecidableEq, Repr

/-- The four pre-configured limiter policies. -/
def rateLimiterBulk : RateLimiterOptions := ⟨10, 60 * 1000, 200, 3⟩

def rateLimiterSearch : RateLimiterOptions := ⟨30, 60 * 1000, 100, 8⟩

def rateLimiterFile : RateLimiterOptions := ⟨5, 60 * 1000, 500, 2⟩

def rateLimiterStandard : RateLimiterOptions := ⟨60, 60 * 1000, 50, 15⟩

/-- The rejection error; `waitTimeMs` is
`oldestRequest + windowMs - now` (`none` models the `Infinity` produced by
`Math.min(...[])` when the retained window is empty). -/
structure RateLimitError where
  waitTimeMs : Option ℚ
  deriving DecidableEq, Repr

/-- `Math.min(...history)`: `none` for the empty spread (JS `Infinity`). -/
def jsMinList : List ℚ → Option ℚ
  | [] => none
  | x :: xs => some (xs.foldl min x)

/-- Result of an admitted `checkAndWait`: the new history for the key, and
whether the burst penalty (`2 × delayMs`) and the steady-state pacing delay
(`delayMs`) were slept. -/
structure AdmitResult where
  history : List ℚ
  burstDelayed : Bool
  paceDelayed : Bool
  deriving DecidableEq, Repr

/-- One `checkAndWait(key)` call on the key's history at time `now`:
prune to the window, reject when full (with the wait derived from the
oldest retained timestamp), apply the burst penalty when the `windowMs/10`
sub-window holds at least `burstLimit` requests, record `now`, and pace
when more than one request is now on record. -/
def checkAndWaitStep (o : RateLimiterOptions) (hist : List ℚ) (now : ℚ) :
    Except RateLimitError AdmitResult :=
  let windowStart := now - o.windowMs
  let history := hist.filter (fun t => windowStart < t)
  if o.maxRequests ≤ history.length then
    .error ⟨(jsMinList history).map (fun oldest => oldest + o.windowMs - now)⟩
  else
    let recent := history.filter (fun t => now - o.windowMs / 10 < t)
    let newHistory := history ++ [now]
    .ok ⟨newHistory, o.burstLimit ≤ recent.length, 1 < newHistory.length⟩

/-- Run a sequence of `checkAndWait` calls (their wall-clock times) against
one key, starting from `hist`; `none` if any call is rejected. -/
def runCalls (o : RateLimiterOptions) : List ℚ → List ℚ → Option (List ℚ)
  | [], hist => some hist
  | t :: ts, hist =>
    match checkAndWaitStep o hist t with
    | .error _ => none
    | .ok r => runCalls o ts r.history

/-- `getStats(key)`: used and remaining requests in the current window. -/
def getStats (o : RateLimiterOptions) (hist : List ℚ) (now : ℚ) : Nat × Int :=
  let valid := (hist.filter (fun t => now - o.windowMs < t)).length
  (valid, (o.maxRequests : Int) - valid)

/-! ### Audit logger: journal entries and the query surface

`timestamp` is stored as an ISO string in the source and compared through
`new Date(·).getTime()`; the model keeps the epoch milliseconds directly.
The free-form `details`/`metadata` maps take no part in any query logic and
are left out of the entry. -/

structure AuditLogEntry where
  timestampMs : Int
  operation : String
  resource : String
  resourceId : Option String := none
  riskLevel : RiskLevel
  success : Bool
  errorText : Option String := none
  deriving DecidableEq, Repr

structure AuditLogFilter where
  operation : Option String := none
  resource : Option String := none
  riskLevel : Option RiskLevel := none
  success : Option Bool := none
  sinceMs : Option Int := none
  limit : Option Nat := none

/-- JS truthiness of an optional `filter.limit` number: `0` is falsy, so
`logs.slice(0, limit)` is skipped for it. -/
def jsTruthyNat : Option Nat → Bool
  | none => false
  | some n => n ≠ 0

/-- The `(a, b) => new Date(b).getTime() - new Date(a).getTime()` comparator:
stable sort, most recent first. -/
def sortByTimestampDesc (l : List AuditLogEntry) : List AuditLogEntry :=
  l.mergeSort (fun a b => b.timestampMs ≤ a.timestampMs)

/-- `AuditLogger.getLogs(filter)`: substring filters on operation and
resource (skipped for falsy strings), equality filters on risk level and
success, strict since filter, defensive most-recent-first sort, then the
limit slice (skipped for a falsy limit). -/
def getLogs (logs : List AuditLogEntry) (f : AuditLogFilter) : List AuditLogEntry :=
  let filtered := logs
  let filtered := match f.operation with
    | some op => if op.isEmpty then filtered
        else filtered.filter (fun log => strIncludes log.operation op)
    | none => filtered
  let filtered := match f.resource with
    | some res => if res.isEmpty then filtered
        else filtered.filter (fun log => strIncludes log.resource res)
    | none => filtered
  let filtered := match f.riskLevel with
    | some rl => filtered.filter (fun log => log.riskLevel = rl)
    | none => filtered
  let filtered := match f.success with
    | some b => filtered.filter (fun log => log.success = b)
    | none => filtered
  let filtered := match f.sinceMs with
    | some since => filtered.filter (fun log => since < log.timestampMs)
    | none => filtered
  let sorted := sortByTimestampDesc filtered
  match f.limit with
  | some l => if l ≠ 0 then sorted.take l else sorted
  | none => sorted

/-- `getSecurityEvents(limit = 100)`. -/
def getSecurityEvents (logs : List AuditLogEntry) (limit : Nat := 100) : List AuditLogEntry :=
  getLogs logs { resource := some "security", limit := some limit }

/-- `getFailedOperations(limit = 100)`. -/
def getFailedOperations (logs : List AuditLogEntry) (limit : Nat := 100) : List AuditLogEntry :=
  getLogs logs { success := some false, limit := some limit }

/-- `getHighRiskOperations(limit = 100)`: the high-risk query result
concatenated with the critical-risk query result. -/
def getHighRiskOperations (logs : List AuditLogEntry) (limit : Nat := 100) : List AuditLogEntry :=
  getLogs logs { riskLevel := some .high, limit := some limit } ++
  getLogs logs { riskLevel := some .critical, limit := some limit }

/-! ### Permission validator (`permissionValidator.ts`)

The remote `getMyPermissions` call is the external boundary: it enters the
model as an `Except Unit (List String)` argument (the list of capability
names the caller holds, or a thrown transport error).  The permission cache
is a key-ordered association list mirroring the `Map`'s insertion order.
Log emissions (audit entries and `console.warn`) are reported as an event
trace. -/

structure PermissionError where
  permission : String
  resource : Option String
  deriving DecidableEq, Repr

/-- One `(permission, required)` pair of an `operationPermissions` entry
(the optional `project`/`issue` fields of the interface are never set by
the table and take no part in the checks). -/
structure PermissionCheck where
  permission : String
  required : Bool
  deriving DecidableEq, Repr

/-- The static `operationPermissions` table. -/
def operationPermissions : List (String × List PermissionCheck) :=
  [ ("create_issue", [⟨"CREATE_ISSUES", true⟩]),
    ("update_issue", [⟨"EDIT_ISSUES", true⟩]),
    ("bulk_update_issues", [⟨"EDIT_ISSUES", true⟩, ⟨"BULK_CHANGE", false⟩]),
    ("link_issues", [⟨"LINK_ISSUES", true⟩]),
    ("upload_attachment", [⟨"CREATE_ATTACHMENTS", true⟩]),
    ("delete_attachment",
      [⟨"DELETE_OWN_ATTACHMENTS", false⟩, ⟨"DELETE_ALL_ATTACHMENTS", false⟩]),
    ("create_sprint", [⟨"MANAGE_SPRINTS", true⟩]),
    ("complete_sprint", [⟨"MANAGE_SPRINTS", true⟩]),
    ("move_issues_to_sprint", [⟨"SCHEDULE_ISSUES", true⟩]),
    ("create_project_component", [⟨"ADMINISTER_PROJECTS", true⟩]),
    ("create_project_version", [⟨"ADMINISTER_PROJECTS", true⟩]),
    ("create_board", [⟨"MANAGE_BOARDS", true⟩]),
    ("get_all_users", [⟨"USER_PICKER", true⟩, ⟨"BROWSE_USERS", false⟩]) ]

/-- The `permissionHierarchy` of `hasPermission`: broader capabilities and
the capabilities they imply (`*` implies everything). -/
def permissionHierarchy : List (String × List String) :=
  [ ("ADMINISTER", ["*"]),
    ("ADMINISTER_PROJECTS",
      ["CREATE_ISSUES", "EDIT_ISSUES", "DELETE_ISSUES", "MANAGE_SPRINTS",
       "SCHEDULE_ISSUES", "CREATE_ATTACHMENTS", "DELETE_ALL_ATTACHMENTS"]),
    ("PROJECT_ADMIN",
      ["CREATE_ISSUES", "EDIT_ISSUES", "MANAGE_SPRINTS", "SCHEDULE_ISSUES",
       "CREATE_ATTACHMENTS"]) ]

/-- `hasPermission(userPermissions, requiredPermission)`: direct membership
or an implied capability through the hierarchy. -/
def hasPermission (userPermissions : List String) (requiredPermission : String) : Bool :=
  userPermissions.contains requiredPermission ||
  permissionHierarchy.any (fun bp =>
    userPermissions.contains bp.1 &&
      (bp.2.contains "*" || bp.2.contains requiredPermission))

/-- A permission cache entry: capability names and the fetch timestamp. -/
structure PermCacheEntry where
  permissions : List String
  timestamp : Int
  deriving DecidableEq, Repr

abbrev PermCache := List (String × PermCacheEntry)

def permCacheTimeout : Int := 5 * 60 * 1000

def permMaxCacheSize : Nat := 100

/-- `Map.set`: replace in place when the key exists, append otherwise. -/
def permCacheSet (cache : PermCache) (key : String) (entry : PermCacheEntry) : PermCache :=
  if cache.any (fun e => e.1 = key) then
    cache.map (fun e => if e.1 = key then (key, entry) else e)
  else cache ++ [(key, entry)]

/-- `cleanupExpiredCache()`: drop expired entries, then trim the oldest
(by timestamp) down to `maxCacheSize`. -/
def cleanupExpiredCache (now : Int) (cache : PermCache) : PermCache :=
  let kept := cache.filter (fun e => now - e.2.timestamp ≤ permCacheTimeout)
  if permMaxCacheSize < kept.length then
    let sorted := kept.mergeSort (fun a b => a.2.timestamp ≤ b.2.timestamp)
    let toRemove := (sorted.take (kept.length - permMaxCacheSize)).map (fun e => e.1)
    kept.filter (fun e => !toRemove.contains e.1)
  else kept

/-- The log emissions the permission validator makes. -/
inductive PermLogEvent where
  /-- audit entry for an operation outside the table (medium risk) -/
  | undefinedOperation
  /-- the per-check `permission_check` audit entry -/
  | permissionCheck
  /-- low-risk audit entry for missing optional capabilities -/
  | permissionWarning
  /-- `logFailure` plus `console.warn` when a non-permission error was
  caught by `checkOperationPermissions`'s broad catch -/
  | checkFailedWarn
  /-- `console.warn` in `getUserPermissions` when the remote fetch threw -/
  | fetchFailedWarn
  deriving DecidableEq, Repr

/-- `getUserPermissions(projectKey)`: serve from the cache when fresh;
otherwise fetch.  A successful fetch is cached (after an opportunistic
cleanup when the cache is full); a *failed fetch is swallowed*: the catch
logs a warning and returns the empty capability set. -/
def getUserPermissions (cache : PermCache) (now : Int) (projectKey : Option String)
    (fetch : Except Unit (List String)) :
    List String × PermCache × List PermLogEvent :=
  let cacheKey := "permissions_" ++ (match projectKey with | some k => k | none => "global")
  let cached := cache.find? (fun e => e.1 = cacheKey)
  match cached with
  | some e =>
    if now - e.2.timestamp < permCacheTimeout then (e.2.permissions, cache, [])
    else match fetch with
      | .ok permissions =>
        let cache1 := if permMaxCacheSize ≤ cache.length then cleanupExpiredCache now cache
          else cache
        (permissions, permCacheSet cache1 cacheKey ⟨permissions, now⟩, [])
      | .error _ => ([], cache, [.fetchFailedWarn])
  | none =>
    match fetch with
    | .ok permissions =>
      let cache1 := if permMaxCacheSize ≤ cache.length then cleanupExpiredCache now cache
        else cache
      (permissions, permCacheSet cache1 cacheKey ⟨permissions, now⟩, [])
    | .error _ => ([], cache, [.fetchFailedWarn])

/-- `checkOperationPermissions(operation, context)`.  Unknown operations
log and proceed.  Otherwise the caller's capability set is obtained (empty
when the fetch failed), the missing required/optional capabilities are
computed, a `permission_check` audit entry is logged, and a
`PermissionError` naming the first missing required capability is thrown
when any required capability is missing.  The broad catch at the end
rethrows `PermissionError`s, and nothing else inside the `try` can throw
in this model, so the error propagates. -/
def checkOperationPermissions (operation : String) (projectKey : Option String)
    (cache : PermCache) (now : Int) (fetch : Except Unit (List String)) :
    Except PermissionError Unit × PermCache × List PermLogEvent :=
  match operationPermissions.find? (fun e => e.1 = operation) with
  | none => (.ok (), cache, [.undefinedOperation])
  | some (_, opPerms) =>
    let r := getUserPermissions cache now projectKey fetch
    let userPermissions := r.1
    let missingRequired := (opPerms.filter (fun p =>
      p.required && !hasPermission userPermissions p.permission)).map (fun p => p.permission)
    let missingOptional := (opPerms.filter (fun p =>
      !p.required && !hasPermission userPermissions p.permission)).map (fun p => p.permission)
    let events := r.2.2 ++ [.permissionCheck]
    match missingRequired with
    | m :: _ => (.error ⟨m, projectKey⟩, r.2.1, events)
    | [] =>
      if missingOptional.isEmpty then (.ok (), r.2.1, events)
      else (.ok (), r.2.1, events ++ [.permissionWarning])

/-! ### Field validator (`fieldValidation.ts`) -/

structure FieldValidationError where
  field : String
  deriving DecidableEq, Repr

/-- JSON-shaped values as the field validator sees them. -/
inductive JValue where
  | str (s : String)
  | num (n : Int)
  | jsBool (b : Bool)
  | jsNull
  | arr (elems : List JValue)
  | obj (fields : List (String × JValue))

/-- `z.string().max(n)`. -/
def parseStrMax (maxLen : Nat) : JValue → Option JValue
  | .str s => if s.length ≤ maxLen then some (.str s) else none
  | _ => none

/-- `z.object({ key: z.string() })`: the named key must be a string; Zod
strips the other keys from the parsed value. -/
def parseObjStrField (key : String) : JValue → Option JValue
  | .obj fields =>
    match fields.find? (fun f => f.1 = key) with
    | some (_, .str v) => some (.obj [(key, .str v)])
    | _ => none
  | _ => none

/-- `z.object({id: z.string()}).or(z.object({name: z.string()}))`. -/
def parseIdOrName (v : JValue) : Option JValue :=
  (parseObjStrField "id" v).orElse (fun _ => parseObjStrField "name" v)

/-- `z.array(elem).max(n)`. -/
def parseArrMax (maxLen : Nat) (elem : JValue → Option JValue) : JValue → Option JValue
  | .arr elems =>
    if elems.length ≤ maxLen then
      (elems.mapM elem).map .arr
    else none
  | _ => none

/-- The `^\d{4}-\d{2}-\d{2}$` date regex of the `duedate` schema. -/
def isDateStr (s : String) : Bool :=
  match s.data with
  | [y1, y2, y3, y4, d1, m1, m2, d2, a1, a2] =>
    [y1, y2, y3, y4, m1, m2, a1, a2].all Char.isDigit && d1 = '-' && d2 = '-'
  | _ => false

/-- `z.object({ originalEstimate: z.string().optional(),
remainingEstimate: z.string().optional() })`. -/
def parseTimetracking : JValue → Option JValue
  | .obj fields =>
    let pick := fun (key : String) =>
      match fields.find? (fun f => f.1 = key) with
      | some (_, .str v) => some (some (key, JValue.str v))
      | some (_, _) => none
      | none => some none
    match pick "originalEstimate", pick "remainingEstimate" with
    | some o, some r => some (.obj ([o, r].filterMap id))
    | _, _ => none
  | _ => none

/-- `jiraFieldSchemas`: the validation schema of each known Jira field. -/
def jiraFieldSchemas (fieldName : String) : Option (JValue → Option JValue) :=
  match fieldName with
  | "summary" => some (parseStrMax 255)
  | "description" => some (parseStrMax 32767)
  | "environment" => some (parseStrMax 32767)
  | "assignee" => some (fun v =>
      match v with
      | .jsNull => some .jsNull
      | _ => parseObjStrField "accountId" v)
  | "reporter" => some (parseObjStrField "accountId")
  | "priority" => some parseIdOrName
  | "issuetype" => some parseIdOrName
  | "labels" => some (parseArrMax 20 (parseStrMax 255))
  | "components" => some (parseArrMax 20 parseIdOrName)
  | "fixVersions" => some (parseArrMax 20 parseIdOrName)
  | "duedate" => some (fun v =>
      match v with
      | .str s => if isDateStr s then some (.str s) else none
      | _ => none)
  | "timetracking" => some parseTimetracking
  | "security" => some parseIdOrName
  | _ => none

/-- The seven function-local dangerous-value regexes of the generic branch
of `validateIssueFields` (fresh on each call, hence pure). -/
def genericDangerousPatterns : List RePat :=
  [ .scriptTag,
    .litCI "javascript:".data,
    .litCI "vbscript:".data,
    .litCI "onload=".data,
    .litCI "onerror=".data,
    .litCI "onclick=".data,
    .litCI "data:text/html".data ]

/-- `validateCustomField(value)` as called from `validateIssueFields` (no
`fieldType` argument, so the type-directed switch is skipped): dangerous
pattern and length checks on string values, everything else passes.  Its
eleven function-local regexes are the same shapes as
`DANGEROUS_SCRIPT_PATTERNS` but freshly created, hence pure. -/
def validateCustomField (value : JValue) : Except FieldValidationError JValue :=
  match value with
  | .str s =>
    if dangerousScriptPatterns.any (fun p => jsTestPure p s.data) then
      .error ⟨"custom_field"⟩
    else if 32767 < s.length then .error ⟨"custom_field"⟩
    else .ok value
  | _ => .ok value

structure IssueFieldOptions where
  allowedFields : List String := []
  maxStringLength : Nat := 32767
  maxArrayLength : Nat := 50
  blockDangerousValues : Bool := true

/-- One iteration of the `validateIssueFields` loop over the entries of the
field map, in insertion order, failing fast on the first violating field:
allow-list check, known-schema parse, custom-field branch, then the generic
dangerous-pattern / length / array-size checks. -/
def validateFieldsGo (options : IssueFieldOptions) :
    List (String × JValue) → Except FieldValidationError (List (String × JValue))
  | [] => .ok []
  | (fieldName, fieldValue) :: rest =>
    if !options.allowedFields.isEmpty && !options.allowedFields.contains fieldName then
      .error ⟨fieldName⟩
    else
      match jiraFieldSchemas fieldName with
      | some schema =>
        match schema fieldValue with
        | some parsed => (validateFieldsGo options rest).map (fun vs => (fieldName, parsed) :: vs)
        | none => .error ⟨fieldName⟩
      | none =>
        if fieldName.startsWith "customfield_" then
          match validateCustomField fieldValue with
          | .ok v => (validateFieldsGo options rest).map (fun vs => (fieldName, v) :: vs)
          | .error e => .error e
        else
          let strDanger := options.blockDangerousValues &&
            (match fieldValue with
             | .str s => genericDangerousPatterns.any (fun p => jsTestPure p s.data)
             | _ => false)
          let strTooLong := options.blockDangerousValues &&
            (match fieldValue with
             | .str s => options.maxStringLength < s.length
             | _ => false)
          let arrTooLong : Bool :=
            match fieldValue with
            | .arr elems => options.maxArrayLength < elems.length
            | _ => false
          if strDanger then .error ⟨fieldName⟩
          else if strTooLong then .error ⟨fieldName⟩
          else if arrTooLong then .error ⟨fieldName⟩
          else (validateFieldsGo options rest).map (fun vs => (fieldName, fieldValue) :: vs)

/-- `validateIssueFields(fields, options)`. -/
def validateIssueFields (fields : List (String × JValue)) (options : IssueFieldOptions) :
    Except FieldValidationError (List (String × JValue)) :=
  validateFieldsGo options fields

/-- The tiered `safeFieldSets` allow-lists. -/
structure SafeFieldSetsT where
  basic : List String
  extended : List String
  admin : List String

def safeFieldSets : SafeFieldSetsT where
  basic := ["summary", "description", "labels", "priority", "assignee",
            "reporter", "environment", "duedate", "components", "fixVersions"]
  extended := ["summary", "description", "labels", "priority", "assignee",
               "reporter", "environment", "duedate", "components", "fixVersions",
               "timetracking", "security"]
  admin := ["summary", "description", "labels", "priority", "assignee",
            "reporter", "environment", "duedate", "components", "fixVersions",
            "timetracking", "security", "issuetype", "project"]

/-! ### The `create_issue` tool handler (`issueTools.ts`) -/

/-- The arguments of the `create_issue` tool after the Zod parse (which, on
these already-typed arguments, only fills in the `issueType` default). -/
structure CreateIssueArgs where
  projectKey : String
  summary : String
  description : Option String := none
  issueType : String := "Task"
  priority : Option String := none
  assignee : Option String := none
  labels : Option (List String) := none

/-- The Atlassian-document wrapper the handler builds around a description. -/
def docFromText (text : String) : JValue :=
  .obj [("type", .str "doc"), ("version", .num 1),
        ("content", .arr [.obj [("type", .str "paragraph"),
          ("content", .arr [.obj [("type", .str "text"), ("text", .str text)]])]])]

/-- The `issueFields` object the `create_issue` handler assembles, in
insertion order: `project`, `summary`, `issuetype` always, then the
optional fields. -/
def buildIssueFields (a : CreateIssueArgs) : List (String × JValue) :=
  [ ("project", .obj [("key", .str a.projectKey)]),
    ("summary", .str a.summary),
    ("issuetype", .obj [("name", .str a.issueType)]) ]
  ++ (match a.description with
      | some d => [("description", docFromText d)]
      | none => [])
  ++ (match a.priority with
      | some p => [("priority", JValue.obj [("name", .str p)])]
      | none => [])
  ++ (match a.assignee with
      | some x => [("assignee", JValue.obj [("accountId", .str x)])]
      | none => [])
  ++ (match a.labels with
      | some ls => [("labels", JValue.arr (ls.map .str))]
      | none => [])

/-- The `create_issue` handler from the point after rate-limit admission
and the Zod argument parse: build the field map, validate it against the
`basic` allow-list, and only on success reach the remote
`jiraClient.issues.createIssue` call.  The boolean records whether the
remote call is reached. -/
def createIssueInvoke (a : CreateIssueArgs) :
    Except FieldValidationError (List (String × JValue)) × Bool :=
  match validateIssueFields (buildIssueFields a)
      { allowedFields := safeFieldSets.basic, blockDangerousValues := true } with
  | .error e => (.error e, false)
  | .ok validated => (.ok validated, true)

/-- A 2001-character query (no dangerous content), for the length ceiling. -/
def longQuery : String := String.mk (List.replicate 2001 'a')

/-- A 2001-character query that begins with a dangerous SQL keyword. -/
def longDropQuery : String := String.mk ('D' :: 'R' :: 'O' :: 'P' :: ' ' :: List.replicate 1996 'a')

/-! ### Helper lemmas -/

theorem findSome?_isSome_of_mem {α β : Type} {f : α → Option β} {l : List α} {x : α}
    (hx : x ∈ l) (hf : (f x).isSome) : (l.findSome? f).isSome := by
  induction l with
  | nil => cases hx
  | cons a l ih =>
    rw [List.findSome?_cons]
    cases hfa : f a with
    | some b => rfl
    | none =>
      rcases List.mem_cons.mp hx with h | h
      · rw [h, hfa] at hf; cases hf
      · exact ih h

/-- A match anywhere inside the string makes a fresh `test` succeed. -/
theorem jsTestPure_of_matchEndAt {p : RePat} {s : List Char} {i : Nat}
    (hi : i ≤ s.length) (hm : (matchEndAt p s i).isSome) : jsTestPure p s = true := by
  unfold jsTestPure findFrom
  have hmem : i ∈ (List.range (s.length + 1)).filter (fun j => decide (0 ≤ j)) :=
    List.mem_filter.mpr ⟨List.mem_range.mpr (Nat.lt_succ_of_le hi), by simp⟩
  have : ((matchEndAt p s i).map (fun e => (i, e))).isSome := by
    cases hv : matchEndAt p s i with
    | some e => rfl
    | none => rw [hv] at hm; cases hm
  exact findSome?_isSome_of_mem hmem this

theorem wordAltEndAt_isSome {ws : List (List Char)} {s : List Char} {i : Nat} {w : List Char}
    (hb : boundaryLeft s i = true) (hw : w ∈ ws)
    (hpre : listIsPrefixCI w (s.drop i) = true)
    (hbr : boundaryRight s (i + w.length) = true) :
    (wordAltEndAt ws s i).isSome := by
  unfold wordAltEndAt
  rw [hb]
  simp only [if_true]
  exact findSome?_isSome_of_mem hw (by rw [hpre, hbr]; rfl)


/-- A pattern whose first character is not (case-insensitively) `a` is
never a prefix of a run of `a`s. -/
theorem listIsPrefixCI_replicate_aHead {c : Char} {xs : List Char}
    (ha : charEqCI c 'a' = false) (m : Nat) :
    listIsPrefixCI (c :: xs) (List.replicate m 'a') = false := by
  cases m with
  | zero => rfl
  | succ k => simp [List.replicate, listIsPrefixCI, ha]

/-- A pattern whose second character is not (case-insensitively) `a` is
never a prefix of a run of `a`s either (covers `ALTER`). -/
theorem listIsPrefixCI_replicate_aSnd {c c' : Char} {rest : List Char}
    (ha : charEqCI c' 'a' = false) (m : Nat) :
    listIsPrefixCI (c :: c' :: rest) (List.replicate m 'a') = false := by
  cases m with
  | zero => rfl
  | succ k =>
    cases k with
    | zero => simp [List.replicate, listIsPrefixCI]
    | succ k2 => simp [List.replicate, listIsPrefixCI, ha]

theorem wordAltEndAt_eq_none {ws : List (List Char)} {s : List Char} {i : Nat}
    (h : ∀ w ∈ ws, listIsPrefixCI w (s.drop i) = false) :
    wordAltEndAt ws s i = none := by
  unfold wordAltEndAt
  have hfs : ws.findSome? (fun w =>
      if listIsPrefixCI w (s.drop i) && boundaryRight s (i + w.length) then
        some (i + w.length)
      else none) = none :=
    List.findSome?_eq_none_iff.mpr (fun w hw => by rw [h w hw]; rfl)
  rw [hfs]
  split <;> rfl

/-- No dangerous pattern of either revision matches anywhere inside a pure
run of `a` characters. -/
theorem matchEndAt_replicate_a {p : RePat}
    (hp : p ∈ dangerousScriptPatterns ++ sqlDangerousPatterns) (n i : Nat) :
    matchEndAt p (List.replicate n 'a') i = none := by
  have hdrop : ∀ j : Nat, (List.replicate n 'a').drop j = List.replicate (n - j) 'a' :=
    fun j => List.drop_replicate 'a' j n
  have hpre : ∀ (c : Char) (xs : List Char), charEqCI c 'a' = false →
      listIsPrefixCI (c :: xs) ((List.replicate n 'a').drop i) = false := by
    intro c xs hc; rw [hdrop i]; exact listIsPrefixCI_replicate_aHead hc _
  have hpre' : ∀ (c c' : Char) (xs : List Char), charEqCI c' 'a' = false →
      listIsPrefixCI (c :: c' :: xs) ((List.replicate n 'a').drop i) = false := by
    intro c c' xs hc; rw [hdrop i]; exact listIsPrefixCI_replicate_aSnd hc _
  simp only [dangerousScriptPatterns, sqlDangerousPatterns, List.cons_append,
    List.nil_append] at hp
  fin_cases hp <;> simp only [matchEndAt] <;>
    first
    | (rw [hpre _ _ (by decide)]; rfl)
    | (unfold callEndAt; rw [hpre _ _ (by decide)]; rfl)
    | (unfold scriptTagEndAt
       rw [show ("<script".data : List Char) = '<' :: "script".data from rfl,
         hpre _ _ (by decide)]
       rfl)
    | (apply wordAltEndAt_eq_none
       intro w hw
       fin_cases hw <;>
         first
         | exact hpre _ _ (by decide)
         | exact hpre' _ _ _ (by decide))
    | (rw [wordAltEndAt_eq_none (fun w hw => by
        fin_cases hw <;> exact hpre _ _ (by decide))])
    | (unfold quoteSemiEndAt
       rw [hdrop i]
       cases hni : n - i with
       | zero => rfl
       | succ k => simp [List.replicate])

theorem jsTestPure_replicate_a {p : RePat}
    (hp : p ∈ dangerousScriptPatterns ++ sqlDangerousPatterns) (n : Nat) :
    jsTestPure p (List.replicate n 'a') = false := by
  unfold jsTestPure findFrom
  rw [List.findSome?_eq_none_iff.mpr (fun i _ => by
    rw [matchEndAt_replicate_a hp n i]; rfl)]
  rfl

/-- When no module-level pattern matches at all, running the pattern loop
from the freshly-loaded `lastIndex` state reports no hit and leaves the
state at all zeroes. -/
theorem testPatternsSeq_of_pure_false {s : List Char} :
    ∀ ps : List RePat, (∀ p ∈ ps, jsTestPure p s = false) →
      testPatternsSeq ps (List.replicate ps.length 0) s =
        (false, List.replicate ps.length 0) := by
  intro ps
  induction ps with
  | nil => intro _; rfl
  | cons p ps ih =>
    intro h
    have h0 : jsTestG p s 0 = (false, 0) := by
      have hp := h p (List.mem_cons_self p ps)
      unfold jsTestPure at hp
      unfold jsTestG
      cases hf : findFrom p s 0 with
      | some v => rw [hf] at hp; cases hp
      | none => rfl
    show testPatternsSeq (p :: ps) (0 :: List.replicate ps.length 0) s = _
    unfold testPatternsSeq
    rw [h0, ih (fun q hq => h q (List.mem_cons_of_mem _ hq))]
    rfl

/-! ### Claims -/

/-- C1: the claim says that when the remote `getMyPermissions` call throws,
`checkOperationPermissions` does not throw for operations with required
capabilities.  The code does the opposite: `getUserPermissions` swallows
the fetch error (one warning) and returns the empty capability set, after
which every required capability is reported missing and
`checkOperationPermissions` throws a `PermissionError` naming the first
one — it fails closed.  This theorem evaluates the model at the failing
input `create_issue` (required capability `CREATE_ISSUES`, fresh cache,
fetch throwing). -/
theorem claim_C1_fetch_error_fails_closed :
    checkOperationPermissions "create_issue" none [] 0 (.error ()) =
      (.error ⟨"CREATE_ISSUES", none⟩, [], [.fetchFailedWarn, .permissionCheck]) := by
  rfl

/-- C2 counterexample: the claim asserts `classify("list_projects",
"project") = low`, but `determineRiskLevel` also treats the resource
keywords `user`/`project`/`board` as critical, so the result is
`critical`, not `low` (which simultaneously refutes the claim's "no listed
keyword implies low" clause at the same input). -/
theorem claim_C2_counterexample :
    determineRiskLevel "list_projects" "project" = .critical ∧
    determineRiskLevel "list_projects" "project" ≠ .low := by
  constructor
  · rfl
  · intro h; cases h

/-- C2 (amended): risk classification is a pure function of the name
keywords; `classify("delete_attachment","attachment") = critical`,
`classify("update_issue","issue") = medium`, and
`classify("list_projects","project") = critical` (the resource keywords
user/project/board are critical triggers too); an input containing no
critical-tier, no high-tier and no medium-tier keyword classifies low;
identical inputs always classify identically. -/
theorem claim_C2_risk_determinism :
    determineRiskLevel "delete_attachment" "attachment" = .critical ∧
    determineRiskLevel "update_issue" "issue" = .medium ∧
    determineRiskLevel "list_projects" "project" = .critical ∧
    (∀ operation resource : String,
      criticalHit operation resource = false →
      highHit operation resource = false →
      mediumHit operation resource = false →
      determineRiskLevel operation resource = .low) ∧
    (∀ operation resource : String,
      determineRiskLevel operation resource = determineRiskLevel operation resource) := by
  refine ⟨rfl, rfl, rfl, ?_, fun _ _ => rfl⟩
  intro operation resource h1 h2 h3
  unfold determineRiskLevel
  rw [h1, h2, h3]
  rfl

/-- C2 witness: a concrete keyword-free input classifies low. -/
theorem claim_C2_witness :
    criticalHit "fetch_thing" "thing" = false ∧
    highHit "fetch_thing" "thing" = false ∧
    mediumHit "fetch_thing" "thing" = false ∧
    determineRiskLevel "fetch_thing" "thing" = .low :=
  ⟨by decide, by decide, by decide,
    claim_C2_risk_determinism.2.2.2.1 "fetch_thing" "thing"
      (by decide) (by decide) (by decide)⟩

/-- C10: the claim (and the spec's reading of `sanitizeJQL` as a function
of the query) requires two consecutive calls on one query to agree.  The
module-level `DANGEROUS_SCRIPT_PATTERNS` carry the `g` flag, so a
successful `test` leaves `lastIndex` past the match: the first call on
`"javascript:x"` throws `DANGEROUS_JQL_PATTERN`, the second call resumes
the `javascript:` regex at index 11, misses, and returns the query —
`sanitizeJQL` is not deterministic across calls. -/
theorem claim_C10_jql_not_stateless :
    (sanitizeJQLv1 scriptPatternsInit "javascript:x").fst =
      .error ⟨"DANGEROUS_JQL_PATTERN"⟩ ∧
    (sanitizeJQLv1 (sanitizeJQLv1 scriptPatternsInit "javascript:x").snd
        "javascript:x").fst = .ok "javascript:x" := by
  constructor <;> rfl

/-- C3 counterexample: the claim fails on the code in two ways.  The first
revision's `sanitizeJQL` has only script-injection patterns, so a query
containing `"; DROP TABLE"` — and likewise one containing `<script>`
without a closing tag — is returned trimmed rather than rejected.  And a
2001-character query that contains a dangerous keyword is rejected as
`DANGEROUS_JQL_PATTERN`, not `JQL_TOO_LONG`, because the pattern loop runs
before the length ceiling. -/
theorem claim_C3_counterexample :
    (sanitizeJQLv1 scriptPatternsInit "; DROP TABLE").fst = .ok "; DROP TABLE" ∧
    (sanitizeJQLv1 scriptPatternsInit "x <script> y").fst = .ok "x <script> y" ∧
    2000 < longDropQuery.length ∧
    sanitizeJQLv2 longDropQuery = .error ⟨"DANGEROUS_JQL_PATTERN"⟩ := by
  refine ⟨rfl, rfl, ?_, ?_⟩
  · show 2000 < ('D' :: 'R' :: 'O' :: 'P' :: ' ' :: List.replicate 1996 'a').length
    simp only [List.length_cons, List.length_replicate]
    omega
  · have htest : jsTestPure
        (RePat.wordAlt ["DROP".data, "DELETE".data, "INSERT".data, "UPDATE".data,
          "CREATE".data, "ALTER".data, "TRUNCATE".data]) longDropQuery.data = true :=
      @jsTestPure_of_matchEndAt _ _ 0 (Nat.zero_le _)
        (wordAltEndAt_isSome rfl (List.mem_cons_self _ _) rfl rfl)
    have hany : sqlDangerousPatterns.any
        (fun p => jsTestPure p longDropQuery.data) = true :=
      List.any_eq_true.mpr ⟨_, by decide, htest⟩
    unfold sanitizeJQLv2
    rw [hany]
    rfl

/-- C3 (amended): a query longer than 2000 characters on which no
dangerous pattern fires is rejected with `JQL_TOO_LONG` (both revisions);
the *second* revision rejects with `DANGEROUS_JQL_PATTERN` every query
containing `"; DROP TABLE"` and every query containing `<script>` (via its
SQL-keyword and script-word patterns), while the first revision's pattern
list has no SQL keywords; a clean query like
`"project = X AND status = Open"` passes both revisions unchanged. -/
theorem claim_C3_jql_gate :
    (∀ q : String, (∀ p ∈ dangerousScriptPatterns, jsTestPure p q.data = false) →
      2000 < q.length →
      (sanitizeJQLv1 scriptPatternsInit q).fst = .error ⟨"JQL_TOO_LONG"⟩) ∧
    (∀ q : String, (∀ p ∈ sqlDangerousPatterns, jsTestPure p q.data = false) →
      2000 < q.length → sanitizeJQLv2 q = .error ⟨"JQL_TOO_LONG"⟩) ∧
    (∀ a b : String,
      sanitizeJQLv2 (a ++ "; DROP TABLE" ++ b) = .error ⟨"DANGEROUS_JQL_PATTERN"⟩) ∧
    (∀ a b : String,
      sanitizeJQLv2 (a ++ "<script>" ++ b) = .error ⟨"DANGEROUS_JQL_PATTERN"⟩) ∧
    ((sanitizeJQLv1 scriptPatternsInit "project = X AND status = Open").fst =
        .ok "project = X AND status = Open" ∧
      sanitizeJQLv2 "project = X AND status = Open" =
        .ok "project = X AND status = Open") := by
  refine ⟨?_, ?_, ?_, ?_, rfl, rfl⟩
  · intro q h hlen
    have hr := testPatternsSeq_of_pure_false dangerousScriptPatterns h
    unfold sanitizeJQLv1
    rw [show scriptPatternsInit = List.replicate dangerousScriptPatterns.length 0 from rfl,
      hr]
    simp [hlen]
  · intro q h hlen
    have hany : sqlDangerousPatterns.any (fun p => jsTestPure p q.data) = false :=
      List.any_eq_false.mpr (fun p hp => by rw [h p hp]; simp)
    unfold sanitizeJQLv2
    rw [hany]
    simp [hlen]
  · intro a b
    have hdata : (a ++ "; DROP TABLE" ++ b).data
        = (a.data ++ [';', ' ']) ++ ("DROP TABLE".data ++ b.data) := by
      rw [String.data_append, String.data_append]
      show (a.data ++ ([';', ' '] ++ "DROP TABLE".data)) ++ b.data = _
      simp [List.append_assoc]
    have hb : boundaryLeft ((a.data ++ [';', ' ']) ++ ("DROP TABLE".data ++ b.data))
        (a.data ++ [';', ' ']).length = true := by
      unfold boundaryLeft
      rw [List.take_left, show a.data ++ [';', ' '] = (a.data ++ [';']) ++ [' '] by simp,
        List.getLast?_concat]
      rfl
    have hpre : listIsPrefixCI "DROP".data
        (((a.data ++ [';', ' ']) ++ ("DROP TABLE".data ++ b.data)).drop
          (a.data ++ [';', ' ']).length) = true := by
      rw [List.drop_left]; rfl
    have hbr : boundaryRight ((a.data ++ [';', ' ']) ++ ("DROP TABLE".data ++ b.data))
        ((a.data ++ [';', ' ']).length + ("DROP".data).length) = true := by
      unfold boundaryRight
      rw [List.drop_append]
      rfl
    have hi : (a.data ++ [';', ' ']).length ≤
        ((a.data ++ [';', ' ']) ++ ("DROP TABLE".data ++ b.data)).length := by
      simp only [List.length_append]
      omega
    have htest : jsTestPure
        (RePat.wordAlt ["DROP".data, "DELETE".data, "INSERT".data, "UPDATE".data,
          "CREATE".data, "ALTER".data, "TRUNCATE".data])
        ((a ++ "; DROP TABLE" ++ b).data) = true := by
      rw [hdata]
      exact jsTestPure_of_matchEndAt hi
        (wordAltEndAt_isSome hb (List.mem_cons_self _ _) hpre hbr)
    have hany : sqlDangerousPatterns.any
        (fun p => jsTestPure p (a ++ "; DROP TABLE" ++ b).data) = true :=
      List.any_eq_true.mpr ⟨_, by decide, htest⟩
    unfold sanitizeJQLv2
    rw [hany]
    rfl
  · intro a b
    have hdata : (a ++ "<script>" ++ b).data
        = (a.data ++ ['<']) ++ ("script>".data ++ b.data) := by
      rw [String.data_append, String.data_append]
      show (a.data ++ (['<'] ++ "script>".data)) ++ b.data = _
      simp [List.append_assoc]
    have hb : boundaryLeft ((a.data ++ ['<']) ++ ("script>".data ++ b.data))
        (a.data ++ ['<']).length = true := by
      unfold boundaryLeft
      rw [List.take_left, List.getLast?_concat]
      rfl
    have hpre : listIsPrefixCI "SCRIPT".data
        (((a.data ++ ['<']) ++ ("script>".data ++ b.data)).drop
          (a.data ++ ['<']).length) = true := by
      rw [List.drop_left]; rfl
    have hbr : boundaryRight ((a.data ++ ['<']) ++ ("script>".data ++ b.data))
        ((a.data ++ ['<']).length + ("SCRIPT".data).length) = true := by
      unfold boundaryRight
      rw [List.drop_append]
      rfl
    have hi : (a.data ++ ['<']).length ≤
        ((a.data ++ ['<']) ++ ("script>".data ++ b.data)).length := by
      simp only [List.length_append]
      omega
    have htest : jsTestPure
        (RePat.wordAlt ["SCRIPT".data, "JAVASCRIPT".data, "VBSCRIPT".data])
        ((a ++ "<script>" ++ b).data) = true := by
      rw [hdata]
      exact jsTestPure_of_matchEndAt hi
        (wordAltEndAt_isSome hb (List.mem_cons_self _ _) hpre hbr)
    have hany : sqlDangerousPatterns.any
        (fun p => jsTestPure p (a ++ "<script>" ++ b).data) = true :=
      List.any_eq_true.mpr ⟨_, by decide, htest⟩
    unfold sanitizeJQLv2
    rw [hany]
    rfl

/-- C3 witness: a 2001-character dangerous-pattern-free query is rejected
with `JQL_TOO_LONG` by both revisions. -/
theorem claim_C3_witness :
    (∀ p ∈ dangerousScriptPatterns, jsTestPure p longQuery.data = false) ∧
    (∀ p ∈ sqlDangerousPatterns, jsTestPure p longQuery.data = false) ∧
    2000 < longQuery.length ∧
    (sanitizeJQLv1 scriptPatternsInit longQuery).fst = .error ⟨"JQL_TOO_LONG"⟩ ∧
    sanitizeJQLv2 longQuery = .error ⟨"JQL_TOO_LONG"⟩ := by
  have h1 : ∀ p ∈ dangerousScriptPatterns, jsTestPure p longQuery.data = false :=
    fun p hp => jsTestPure_replicate_a (List.mem_append.mpr (Or.inl hp)) 2001
  have h2 : ∀ p ∈ sqlDangerousPatterns, jsTestPure p longQuery.data = false :=
    fun p hp => jsTestPure_replicate_a (List.mem_append.mpr (Or.inr hp)) 2001
  have hlen : 2000 < longQuery.length := by
    show 2000 < (List.replicate 2001 'a').length
    rw [List.length_replicate]
    omega
  exact ⟨h1, h2, hlen, claim_C3_jql_gate.1 longQuery h1 hlen,
    claim_C3_jql_gate.2.1 longQuery h2 hlen⟩

/-- C7 counterexample: when the configured phrase is the empty string, a
supplied confirmation exactly equal to that phrase is still rejected — the
`!confirmation` truthiness test conflates the empty string with a missing
confirmation, so the claim's "exactly equals the phrase implies success"
direction fails. -/
theorem claim_C7_counterexample :
    (some "" : Option String) = some ("" : String) ∧
    validateDestructiveOperation "delete_issue" (some "")
        { requireConfirmation := true, confirmationPhrase := "", auditLog := true } =
      .error ⟨"CONFIRMATION_REQUIRED"⟩ := by
  exact ⟨rfl, rfl⟩

/-- C7 (amended): with confirmation required, every supplied confirmation
that is missing, empty, or different from the configured phrase fails with
`CONFIRMATION_REQUIRED`; a *nonempty* confirmation exactly equal to the
phrase succeeds, emitting the audit warning side effect (on by default). -/
theorem claim_C7_confirmation
    (operation : String) (confirmation : Option String)
    (options : DestructiveOperationOptions)
    (hreq : options.requireConfirmation = true) :
    ((confirmation = none ∨
        ∀ s : String, confirmation = some s →
          s.isEmpty = true ∨ s ≠ options.confirmationPhrase) →
      validateDestructiveOperation operation confirmation options =
        .error ⟨"CONFIRMATION_REQUIRED"⟩) ∧
    (∀ s : String, confirmation = some s → s = options.confirmationPhrase →
      s.isEmpty = false →
      validateDestructiveOperation operation confirmation options =
        .ok ⟨options.auditLog⟩) := by
  constructor
  · intro h
    unfold validateDestructiveOperation
    rw [hreq]
    rcases h with h | h
    · subst h; rfl
    · cases confirmation with
      | none => rfl
      | some s =>
        rcases h s rfl with hs | hs
        · simp [jsFalsyStr, hs]
        · simp [jsFalsyStr, bne_iff_ne, hs]
  · intro s hc hs hne
    subst hc
    subst hs
    unfold validateDestructiveOperation
    rw [hreq]
    simp [jsFalsyStr, hne]

/-- C7 witness: `"yes"` and a missing confirmation fail against the default
phrase; supplying exactly `"CONFIRM_DELETE"` succeeds with the audit
side effect. -/
theorem claim_C7_witness :
    ({} : DestructiveOperationOptions).requireConfirmation = true ∧
    validateDestructiveOperation "delete_issue" (some "yes") {} =
      .error ⟨"CONFIRMATION_REQUIRED"⟩ ∧
    validateDestructiveOperation "delete_issue" none {} =
      .error ⟨"CONFIRMATION_REQUIRED"⟩ ∧
    validateDestructiveOperation "delete_issue" (some "CONFIRM_DELETE") {} =
      .ok ⟨true⟩ := by
  refine ⟨rfl, ?_, ?_, ?_⟩
  · exact (claim_C7_confirmation "delete_issue" (some "yes") {} rfl).1
      (Or.inr (fun s hs => by cases hs; exact Or.inr (by decide)))
  · exact (claim_C7_confirmation "delete_issue" none {} rfl).1 (Or.inl rfl)
  · exact (claim_C7_confirmation "delete_issue" (some "CONFIRM_DELETE") {} rfl).2
      "CONFIRM_DELETE" rfl rfl rfl

/-- C4: on every `create_issue` invocation the assembled field map starts
with `project` and always contains `issuetype`, while the `basic`
allow-list contains neither; so validation raises a `FieldValidationError`
naming `project` (the first disallowed field) and the remote `createIssue`
call is never reached. -/
theorem claim_C4_create_issue_always_rejected (a : CreateIssueArgs) :
    ((buildIssueFields a).map Prod.fst).contains "project" = true ∧
    ((buildIssueFields a).map Prod.fst).contains "issuetype" = true ∧
    safeFieldSets.basic.contains "project" = false ∧
    safeFieldSets.basic.contains "issuetype" = false ∧
    validateIssueFields (buildIssueFields a)
        { allowedFields := safeFieldSets.basic, blockDangerousValues := true } =
      .error ⟨"project"⟩ ∧
    createIssueInvoke a = (.error ⟨"project"⟩, false) :=
  ⟨rfl, rfl, rfl, rfl, rfl, rfl⟩

theorem foldl_min_le_init (xs : List ℚ) (x : ℚ) : xs.foldl min x ≤ x := by
  induction xs generalizing x with
  | nil => exact le_refl x
  | cons y ys ih => exact le_trans (ih (min x y)) (min_le_left x y)

theorem foldl_min_le_mem (xs : List ℚ) (x : ℚ) : ∀ y ∈ xs, xs.foldl min x ≤ y := by
  induction xs generalizing x with
  | nil => intro y hy; cases hy
  | cons z zs ih =>
    intro y hy
    rcases List.mem_cons.mp hy with h | h
    · subst h
      exact le_trans (foldl_min_le_init zs (min x y)) (min_le_right x y)
    · exact ih (min x z) y h

theorem foldl_min_mem (xs : List ℚ) (x : ℚ) : xs.foldl min x ∈ x :: xs := by
  induction xs generalizing x with
  | nil => exact List.mem_singleton.mpr rfl
  | cons y ys ih =>
    have h := ih (min x y)
    rcases List.mem_cons.mp h with h' | h'
    · rcases min_choice x y with hm | hm
      · exact List.mem_cons.mpr (Or.inl (h'.trans hm))
      · exact List.mem_cons.mpr (Or.inr (List.mem_cons.mpr (Or.inl (h'.trans hm))))
    · exact List.mem_cons.mpr (Or.inr (List.mem_cons.mpr (Or.inr h')))

/-- `Math.min(...history)` of a nonempty history is a member and a lower
bound. -/
theorem jsMinList_spec {l : List ℚ} {m : ℚ} (h : jsMinList l = some m) :
    m ∈ l ∧ ∀ x ∈ l, m ≤ x := by
  cases l with
  | nil => cases h
  | cons x xs =>
    have hm : m = xs.foldl min x := by injection h with h; exact h.symm
    subst hm
    refine ⟨foldl_min_mem xs x, ?_⟩
    intro y hy
    rcases List.mem_cons.mp hy with h' | h'
    · subst h'; exact foldl_min_le_init xs y
    · exact foldl_min_le_mem xs x y h'

/-- The rejection branch of `checkAndWait`. -/
theorem checkAndWaitStep_full {o : RateLimiterOptions} {hist : List ℚ} {now : ℚ}
    (h : o.maxRequests ≤ (hist.filter (fun t => now - o.windowMs < t)).length) :
    checkAndWaitStep o hist now =
      .error ⟨(jsMinList (hist.filter (fun t => now - o.windowMs < t))).map
        (fun oldest => oldest + o.windowMs - now)⟩ := by
  simp only [checkAndWaitStep]
  rw [if_pos h]

/-- The admission branch of `checkAndWait`. -/
theorem checkAndWaitStep_notFull {o : RateLimiterOptions} {hist : List ℚ} {now : ℚ}
    (h : ¬ o.maxRequests ≤ (hist.filter (fun t => now - o.windowMs < t)).length) :
    checkAndWaitStep o hist now =
      .ok ⟨hist.filter (fun t => now - o.windowMs < t) ++ [now],
        decide (o.burstLimit ≤
          ((hist.filter (fun t => now - o.windowMs < t)).filter
            (fun t => now - o.windowMs / 10 < t)).length),
        decide (1 < (hist.filter (fun t => now - o.windowMs < t) ++ [now]).length)⟩ := by
  simp only [checkAndWaitStep]
  rw [if_neg h]

/-- C5: at every admission the retained window holds at most `maxRequests`
timestamps, and a rejection (issued when the pruned window is full) reports
a wait time derived from the oldest retained timestamp that lies between 0
and `windowMs`. -/
theorem claim_C5_sliding_window (o : RateLimiterOptions) (hist : List ℚ) (now : ℚ)
    (hmax : 1 ≤ o.maxRequests) (hmono : ∀ t ∈ hist, t ≤ now) :
    (∀ r : AdmitResult, checkAndWaitStep o hist now = .ok r →
      (r.history.filter (fun t => now - o.windowMs < t)).length ≤ o.maxRequests) ∧
    (∀ e : RateLimitError, checkAndWaitStep o hist now = .error e →
      ∃ w : ℚ, e.waitTimeMs = some w ∧ 0 ≤ w ∧ w ≤ o.windowMs) := by
  by_cases hfull : o.maxRequests ≤ (hist.filter (fun t => now - o.windowMs < t)).length
  · constructor
    · intro r hr
      rw [checkAndWaitStep_full hfull] at hr
      cases hr
    · intro e he
      rw [checkAndWaitStep_full hfull] at he
      injection he with he
      obtain ⟨x, xs, hcons⟩ :
          ∃ x xs, hist.filter (fun t => now - o.windowMs < t) = x :: xs := by
        cases hf : hist.filter (fun t => now - o.windowMs < t) with
        | nil => rw [hf] at hfull; simp at hfull; omega
        | cons x xs => exact ⟨x, xs, rfl⟩
      have hsome : jsMinList (hist.filter (fun t => now - o.windowMs < t)) =
          some (xs.foldl min x) := by rw [hcons]; rfl
      obtain ⟨hmem, _⟩ := jsMinList_spec hsome
      have hwin : now - o.windowMs < xs.foldl min x :=
        of_decide_eq_true (List.mem_filter.mp hmem).2
      have hle : xs.foldl min x ≤ now := hmono _ (List.mem_of_mem_filter hmem)
      refine ⟨xs.foldl min x + o.windowMs - now, ?_, by linarith, by linarith⟩
      rw [← he]
      show (jsMinList (hist.filter (fun t => now - o.windowMs < t))).map
        (fun oldest => oldest + o.windowMs - now) = _
      rw [hsome]
      rfl
  · constructor
    · intro r hr
      rw [checkAndWaitStep_notFull hfull] at hr
      injection hr with hr
      subst hr
      calc ((hist.filter (fun t => now - o.windowMs < t) ++ [now]).filter
              (fun t => now - o.windowMs < t)).length
          ≤ (hist.filter (fun t => now - o.windowMs < t) ++ [now]).length :=
            List.length_filter_le _ _
        _ = (hist.filter (fun t => now - o.windowMs < t)).length + 1 := by
            simp
        _ ≤ o.maxRequests := by omega
    · intro e he
      rw [checkAndWaitStep_notFull hfull] at he
      cases he

/-- C5 witness: the file limiter (5 requests / 60000 ms) with a full window
`[0,1,2,3,4]` at `now = 10` rejects with a wait time between 0 and the
window. -/
theorem claim_C5_witness :
    1 ≤ rateLimiterFile.maxRequests ∧
    (∀ t ∈ [(0 : ℚ), 1, 2, 3, 4], t ≤ 10) ∧
    (∃ e : RateLimitError,
      checkAndWaitStep rateLimiterFile [0, 1, 2, 3, 4] 10 = .error e ∧
      ∃ w : ℚ, e.waitTimeMs = some w ∧ 0 ≤ w ∧ w ≤ rateLimiterFile.windowMs) := by
  have hmono : ∀ t ∈ [(0 : ℚ), 1, 2, 3, 4], t ≤ 10 := by
    intro t ht
    fin_cases ht <;> norm_num
  have hkeep : [(0 : ℚ), 1, 2, 3, 4].filter
      (fun t => (10 : ℚ) - rateLimiterFile.windowMs < t) = [0, 1, 2, 3, 4] :=
    List.filter_eq_self.mpr (fun a ha => decide_eq_true (by
      fin_cases ha <;> norm_num [rateLimiterFile]))
  have hfull : rateLimiterFile.maxRequests ≤ ([(0 : ℚ), 1, 2, 3, 4].filter
      (fun t => (10 : ℚ) - rateLimiterFile.windowMs < t)).length := by
    rw [hkeep]
    decide
  obtain ⟨w, hww, h0, h1⟩ :=
    (claim_C5_sliding_window rateLimiterFile [0, 1, 2, 3, 4] 10 (by decide) hmono).2
      _ (checkAndWaitStep_full hfull)
  exact ⟨by decide, hmono, _, checkAndWaitStep_full hfull, w, hww, h0, h1⟩

/-- A fresh key admits a whole sequence of calls without rejection, and the
history afterwards holds exactly the call times, as long as the calls stay
within `maxRequests` and all lie inside the `windowMs/10` sub-window
ending at some reference time `hi`. -/
theorem runCalls_within (o : RateLimiterOptions) (hw : 0 ≤ o.windowMs) (hi : ℚ) :
    ∀ ts pre : List ℚ,
      pre.length + ts.length ≤ o.maxRequests →
      (∀ t ∈ pre, hi - o.windowMs / 10 < t ∧ t ≤ hi) →
      (∀ t ∈ ts, hi - o.windowMs / 10 < t ∧ t ≤ hi) →
      runCalls o ts pre = some (pre ++ ts) := by
  intro ts
  induction ts with
  | nil =>
    intro pre _ _ _
    simp [runCalls]
  | cons t ts ih =>
    intro pre hlen hpre hts
    have hwdiv : o.windowMs / 10 ≤ o.windowMs := by linarith
    have ht := hts t (List.mem_cons_self _ _)
    have hkeep : pre.filter (fun x => t - o.windowMs < x) = pre :=
      List.filter_eq_self.mpr (fun x hx => decide_eq_true (by
        have h := hpre x hx
        linarith [h.1, h.2, ht.2]))
    have hnotfull : ¬ o.maxRequests ≤ (pre.filter (fun x => t - o.windowMs < x)).length := by
      rw [hkeep]
      simp only [List.length_cons] at hlen
      omega
    show runCalls o (t :: ts) pre = _
    unfold runCalls
    rw [checkAndWaitStep_notFull hnotfull]
    show runCalls o ts (pre.filter (fun x => t - o.windowMs < x) ++ [t]) = _
    rw [hkeep]
    rw [ih (pre ++ [t])
      (by simp only [List.length_append, List.length_singleton,
        List.length_cons, List.length_nil] at hlen ⊢; omega)
      (fun x hx => by
        rcases List.mem_append.mp hx with h | h
        · exact hpre x h
        · rw [List.mem_singleton.mp h]; exact ht)
      (fun x hx => hts x (List.mem_cons_of_mem _ hx))]
    rw [List.append_assoc, List.singleton_append]

/-- C9: from a fresh key, `burstLimit` admitted calls inside the
`windowMs/10` sub-window leave exactly those timestamps on record, and the
next call inside that sub-window is admitted with the burst penalty
(a `2 × delayMs` suspension); moreover every admission that leaves more
than one request on record applies the steady-state `delayMs` pacing
suspension. -/
theorem claim_C9_burst_pacing (o : RateLimiterOptions) (ts : List ℚ) (tNext : ℚ)
    (hw : 0 ≤ o.windowMs)
    (hlen : ts.length = o.burstLimit)
    (hlt : o.burstLimit < o.maxRequests)
    (hts : ∀ t ∈ ts, tNext - o.windowMs / 10 < t ∧ t ≤ tNext) :
    (runCalls o ts [] = some ts ∧
      ∃ r : AdmitResult, checkAndWaitStep o ts tNext = .ok r ∧ r.burstDelayed = true) ∧
    (∀ (hist : List ℚ) (now : ℚ) (r : AdmitResult),
      checkAndWaitStep o hist now = .ok r → 1 < r.history.length →
      r.paceDelayed = true) := by
  have hwdiv : o.windowMs / 10 ≤ o.windowMs := by linarith
  constructor
  · have hrun : runCalls o ts [] = some ts := by
      have := runCalls_within o hw tNext ts []
        (by simp [hlen]; omega) (by intro t ht; cases ht) hts
      simpa using this
    refine ⟨hrun, ?_⟩
    have hkeep : ts.filter (fun x => tNext - o.windowMs < x) = ts :=
      List.filter_eq_self.mpr (fun x hx => decide_eq_true (by
        have h := hts x hx
        linarith [h.1]))
    have hnotfull : ¬ o.maxRequests ≤ (ts.filter (fun x => tNext - o.windowMs < x)).length := by
      rw [hkeep, hlen]
      omega
    have hrecent : (ts.filter (fun x => tNext - o.windowMs < x)).filter
        (fun x => tNext - o.windowMs / 10 < x) = ts := by
      rw [hkeep]
      exact List.filter_eq_self.mpr (fun x hx => decide_eq_true (hts x hx).1)
    refine ⟨_, checkAndWaitStep_notFull hnotfull, ?_⟩
    show decide (o.burstLimit ≤ ((ts.filter (fun x => tNext - o.windowMs < x)).filter
      (fun x => tNext - o.windowMs / 10 < x)).length) = true
    rw [hrecent, hlen]
    exact decide_eq_true (le_refl _)
  · intro hist now r hr h1
    by_cases hfull : o.maxRequests ≤ (hist.filter (fun t => now - o.windowMs < t)).length
    · rw [checkAndWaitStep_full hfull] at hr
      cases hr
    · rw [checkAndWaitStep_notFull hfull] at hr
      injection hr with hr
      subst hr
      exact decide_eq_true h1

/-- C9 witness: on the file limiter (burst 2, window 60000, delay 500) a
fresh key takes calls at times 0 and 1; the next call at time 2 is
admitted with the burst penalty, and its post-admission history of three
entries also incurs the pacing delay. -/
theorem claim_C9_witness :
    (0 : ℚ) ≤ rateLimiterFile.windowMs ∧
    [(0 : ℚ), 1].length = rateLimiterFile.burstLimit ∧
    rateLimiterFile.burstLimit < rateLimiterFile.maxRequests ∧
    runCalls rateLimiterFile [0, 1] [] = some [0, 1] ∧
    (∃ r : AdmitResult, checkAndWaitStep rateLimiterFile [0, 1] 2 = .ok r ∧
      r.burstDelayed = true) := by
  have hw : (0 : ℚ) ≤ rateLimiterFile.windowMs := by norm_num [rateLimiterFile]
  have hts : ∀ t ∈ [(0 : ℚ), 1], 2 - rateLimiterFile.windowMs / 10 < t ∧ t ≤ 2 := by
    intro t ht
    fin_cases ht <;> constructor <;> norm_num [rateLimiterFile]
  have h := (claim_C9_burst_pacing rateLimiterFile [0, 1] 2 hw rfl (by decide) hts).1
  exact ⟨hw, rfl, by decide, h.1, h.2⟩

/-- Every defensive sort in `getLogs` leaves the result most-recent-first. -/
theorem sortByTimestampDesc_pairwise (l : List AuditLogEntry) :
    (sortByTimestampDesc l).Pairwise (fun a b => b.timestampMs ≤ a.timestampMs) := by
  have h := @List.sorted_mergeSort AuditLogEntry
    (fun a b : AuditLogEntry => decide (b.timestampMs ≤ a.timestampMs))
    (fun a b c hab hbc => by
      simp only [decide_eq_true_eq] at hab hbc ⊢
      exact le_trans hbc hab)
    (fun a b => by
      simp only [Bool.or_eq_true, decide_eq_true_eq]
      exact le_total _ _)
    l
  exact h.imp (fun hab => of_decide_eq_true hab)

unseal List.merge List.mergeSort in
/-- C6 counterexample: with a high-risk entry at time 1 logged before a
critical entry at time 2, `getHighRiskOperations` returns the high entry
first — the concatenation of the two risk-filtered queries is not sorted
by timestamp descending. -/
theorem claim_C6_counterexample :
    getHighRiskOperations
        [⟨1, "close_sprint", "sprint", none, .high, true, none⟩,
         ⟨2, "delete_project", "project", none, .critical, true, none⟩] 100 =
      [⟨1, "close_sprint", "sprint", none, .high, true, none⟩,
       ⟨2, "delete_project", "project", none, .critical, true, none⟩] ∧
    ¬ (getHighRiskOperations
        [⟨1, "close_sprint", "sprint", none, .high, true, none⟩,
         ⟨2, "delete_project", "project", none, .critical, true, none⟩] 100).Pairwise
      (fun a b => b.timestampMs ≤ a.timestampMs) := by
  constructor
  · rfl
  · intro h
    have h12 := List.rel_of_pairwise_cons h
      (List.mem_singleton.mpr rfl)
    simp at h12

/-- C6 (amended): every `getLogs` result — and hence the security-event and
failed-operation views — is sorted by timestamp descending regardless of
insertion order; `getHighRiskOperations`, however, is the concatenation of
the high-risk query result with the critical-risk query result, each half
sorted descending but the whole not globally sorted. -/
theorem claim_C6_sorted_queries :
    (∀ (logs : List AuditLogEntry) (f : AuditLogFilter),
      (getLogs logs f).Pairwise (fun a b => b.timestampMs ≤ a.timestampMs)) ∧
    (∀ (logs : List AuditLogEntry) (limit : Nat),
      (getSecurityEvents logs limit).Pairwise (fun a b => b.timestampMs ≤ a.timestampMs)) ∧
    (∀ (logs : List AuditLogEntry) (limit : Nat),
      (getFailedOperations logs limit).Pairwise (fun a b => b.timestampMs ≤ a.timestampMs)) ∧
    (∀ (logs : List AuditLogEntry) (limit : Nat),
      getHighRiskOperations logs limit =
        getLogs logs { riskLevel := some .high, limit := some limit } ++
        getLogs logs { riskLevel := some .critical, limit := some limit }) := by
  have hget : ∀ (logs : List AuditLogEntry) (f : AuditLogFilter),
      (getLogs logs f).Pairwise (fun a b => b.timestampMs ≤ a.timestampMs) := by
    intro logs f
    simp only [getLogs]
    split
    · split
      · exact List.Pairwise.sublist (List.take_sublist _ _)
          (sortByTimestampDesc_pairwise _)
      · exact sortByTimestampDesc_pairwise _
    · exact sortByTimestampDesc_pairwise _
  exact ⟨hget, fun logs limit => hget _ _, fun logs limit => hget _ _,
    fun logs limit => rfl⟩

/-- C8: `validateFilePath` rejects `"../../etc/passwd"` with
`DANGEROUS_PATH_PATTERN` (its normalized form contains `../`); a path that
passes the dangerous-pattern gate but whose resolved form is not a prefix
match of any configured allowed directory fails with `PATH_NOT_ALLOWED`;
and a pattern-clean path inside an allowed directory that exists, is a
regular file, is within the size cap and has an allowed extension succeeds,
returning the canonical absolute (resolved) path. -/
theorem claim_C8_file_path :
    (∀ (fs : FSModel) (cwd : String) (options : FileValidationOptions),
      options.blockDangerousPatterns = true →
      validateFilePath fs cwd "../../etc/passwd" options =
        .error ⟨"DANGEROUS_PATH_PATTERN"⟩) ∧
    (∀ (fs : FSModel) (cwd p : String) (options : FileValidationOptions),
      (options.blockDangerousPatterns &&
        dangerousPathPatterns.any (fun pat =>
          strIncludes (lowerStr (posixNormalize p)) (lowerStr pat))) = false →
      options.allowedDirectories ≠ [] →
      (∀ dir ∈ options.allowedDirectories,
        jsStartsWith (posixResolve cwd (posixNormalize p)) (posixResolve cwd dir) = false) →
      validateFilePath fs cwd p options = .error ⟨"PATH_NOT_ALLOWED"⟩) ∧
    (∀ (fs : FSModel) (cwd p : String) (options : FileValidationOptions),
      (options.blockDangerousPatterns &&
        dangerousPathPatterns.any (fun pat =>
          strIncludes (lowerStr (posixNormalize p)) (lowerStr pat))) = false →
      (options.allowedDirectories = [] ∨ ∃ dir ∈ options.allowedDirectories,
        jsStartsWith (posixResolve cwd (posixNormalize p)) (posixResolve cwd dir) = true) →
      fs.pathExists (posixResolve cwd (posixNormalize p)) = true →
      fs.pathIsFile (posixResolve cwd (posixNormalize p)) = true →
      fs.fileSize (posixResolve cwd (posixNormalize p)) ≤ options.maxFileSize →
      (options.allowedExtensions = [] ∨
        ((jsExtOf (posixNormalize p)).isEmpty = false ∧
          options.allowedExtensions.contains (jsExtOf (posixNormalize p)) = true)) →
      validateFilePath fs cwd p options = .ok (posixResolve cwd (posixNormalize p))) := by
  refine ⟨?_, ?_, ?_⟩
  · intro fs cwd options hb
    simp only [validateFilePath]
    rw [hb]
    rfl
  · intro fs cwd p options hsafe hdirs hmiss
    have hempty : options.allowedDirectories.isEmpty = false := by
      cases hd : options.allowedDirectories with
      | nil => exact absurd hd hdirs
      | cons d ds => rfl
    have hany : options.allowedDirectories.any (fun dir =>
        jsStartsWith (posixResolve cwd (posixNormalize p)) (posixResolve cwd dir)) = false :=
      List.any_eq_false.mpr (fun d hd => by rw [hmiss d hd]; simp)
    simp only [validateFilePath]
    rw [hsafe, hempty, hany]
    rfl
  · intro fs cwd p options hsafe hdir hexists hfile hsize hext
    have hdircond : (!options.allowedDirectories.isEmpty &&
        !options.allowedDirectories.any (fun dir =>
          jsStartsWith (posixResolve cwd (posixNormalize p)) (posixResolve cwd dir))) =
        false := by
      rcases hdir with hd | ⟨d, hd, hhit⟩
      · rw [show options.allowedDirectories.isEmpty = true by rw [hd]; rfl]
        rfl
      · rw [List.any_eq_true.mpr ⟨d, hd, hhit⟩]
        simp
    have hextcond : (!options.allowedExtensions.isEmpty &&
        ((jsExtOf (posixNormalize p)).isEmpty ||
          !options.allowedExtensions.contains (jsExtOf (posixNormalize p)))) = false := by
      rcases hext with he | ⟨hne, hc⟩
      · rw [show options.allowedExtensions.isEmpty = true by rw [he]; rfl]
        rfl
      · rw [hne, hc]
        simp
    simp only [validateFilePath]
    rw [hsafe, hdircond, hexists, hfile, if_neg (not_lt.mpr hsize), hextcond]
    rfl

/-- C8 witness: a filesystem holding exactly `/allowed/dir/file.txt`
(100 bytes): the traversal path is rejected; the file path is rejected when
only `/other/dir` is allowed; and it validates to its resolved form when
`/allowed` is allowed and `txt` is an allowed extension. -/
theorem claim_C8_witness :
    validateFilePath
        ⟨fun q => q = "/allowed/dir/file.txt", fun q => q = "/allowed/dir/file.txt",
          fun _ => 100⟩ "/" "../../etc/passwd" {} = .error ⟨"DANGEROUS_PATH_PATTERN"⟩ ∧
    validateFilePath
        ⟨fun q => q = "/allowed/dir/file.txt", fun q => q = "/allowed/dir/file.txt",
          fun _ => 100⟩ "/" "/allowed/dir/file.txt"
        { allowedDirectories := ["/other/dir"] } = .error ⟨"PATH_NOT_ALLOWED"⟩ ∧
    validateFilePath
        ⟨fun q => q = "/allowed/dir/file.txt", fun q => q = "/allowed/dir/file.txt",
          fun _ => 100⟩ "/" "/allowed/dir/file.txt"
        { allowedDirectories := ["/allowed"], allowedExtensions := ["txt"] } =
      .ok "/allowed/dir/file.txt" := by
  refine ⟨claim_C8_file_path.1 _ "/" _ rfl, ?_, ?_⟩
  · exact claim_C8_file_path.2.1 _ "/" "/allowed/dir/file.txt" _ rfl
      (by decide)
      (fun dir hdir => by
        fin_cases hdir
        rfl)
  · exact claim_C8_file_path.2.2 _ "/" "/allowed/dir/file.txt" _ rfl
      (Or.inr ⟨"/allowed", by decide, rfl⟩)
      rfl rfl (by decide) (Or.inr ⟨rfl, rfl⟩)

/-- C4 witness: a concrete `create_issue` invocation is rejected at the
`project` field before the remote call. -/
theorem claim_C4_witness :
    createIssueInvoke { projectKey := "PX", summary := "Hello" } =
      (.error ⟨"project"⟩, false) :=
  (claim_C4_create_issue_always_rejected { projectKey := "PX", summary := "Hello" }).2.2.2.2.2

/-- C6 witness: a concrete out-of-order journal comes back sorted from
`getLogs`. -/
theorem claim_C6_witness :
    (getLogs
        [⟨3, "update_issue", "issue", none, .medium, true, none⟩,
         ⟨1, "list_projects", "project", none, .critical, true, none⟩,
         ⟨2, "delete_attachment", "attachment", none, .critical, false, none⟩]
        {}).Pairwise (fun a b => b.timestampMs ≤ a.timestampMs) :=
  claim_C6_sorted_queries.1 _ {}
